import Mathlib

/-!
Verification development for the plainly-app content pipeline.

The TypeScript sources are embedded shallowly:
* JavaScript strings are Lean `String`s; the handful of string primitives the
  code relies on (`toLowerCase`, `trim`, `includes`, global `replace` with a
  literal pattern, `substring`) are modelled over `List Char`
  (`lowerL`, `trimL`, `listContains`, `replaceAllL`, `List.take`), with ASCII
  semantics for case mapping, which is all the source uses them for.
* Timestamps (ISO date strings compared and subtracted via `Date`) are modelled
  as integer milliseconds.
* Fallible code (`throw`) is modelled with `Except`; the exact thrown message
  strings are reproduced by `errorMessage`.
* External collaborators (the Supabase row store, the Groq/Claude completion
  call, the JSON.parse builtin) are passed in as explicit parameters, so every
  repository function is a pure, executable Lean function of its inputs.
-/

/-! ## JS string primitives over lists of characters -/

/-- JS `hay.includes(pat)`: `pat` occurs as a contiguous substring of `hay`. -/
def listContains : List Char → List Char → Bool
  | s, p =>
    (p.isPrefixOf s) ||
      (match s with
       | [] => false
       | _ :: t => listContains t p)

/-- Fuelled worker for global literal replacement, scanning left to right and
restarting after each replaced occurrence, exactly like JS
`s.replace(/pat/g, rep)` for a literal pattern. -/
def goRepl : Nat → List Char → List Char → List Char → List Char
  | 0, s, _, _ => s
  | fuel + 1, s, pat, rep =>
    if pat.isPrefixOf s then
      rep ++ goRepl fuel (s.drop pat.length) pat rep
    else
      match s with
      | [] => []
      | c :: t => c :: goRepl fuel t pat rep

/-- JS `s.replace(/pat/g, rep)` for a non-empty literal pattern. -/
def replaceAllL (s pat rep : List Char) : List Char :=
  if pat.isEmpty then s else goRepl s.length s pat rep

/-- Fuelled worker computing the pattern-free segments of a string between the
replaced occurrences; `goRepl` is `myIntercalate rep` of these segments. -/
def goSplit : Nat → List Char → List Char → List (List Char)
  | 0, s, _ => [s]
  | fuel + 1, s, pat =>
    if pat.isPrefixOf s then
      [] :: goSplit fuel (s.drop pat.length) pat
    else
      match s with
      | [] => [[]]
      | c :: t =>
        match goSplit fuel t pat with
        | [] => [[c]]
        | a :: rest => (c :: a) :: rest

/-- Interleave a separator between segments (no trailing separator). -/
def myIntercalate (sep : List Char) : List (List Char) → List Char
  | [] => []
  | [a] => a
  | a :: b :: rest => a ++ sep ++ myIntercalate sep (b :: rest)

/-- JS `s.toLowerCase()`, character by character (ASCII case mapping, which is
all the source feeds it). -/
def lowerL (l : List Char) : List Char := l.map Char.toLower

/-- JS `s.trim()`: strip leading and trailing whitespace. -/
def trimL (l : List Char) : List Char :=
  ((l.dropWhile Char.isWhitespace).reverse.dropWhile Char.isWhitespace).reverse

/-- String wrapper for `listContains` (JS `includes`). -/
def sContains (s p : String) : Bool := listContains s.data p.data

/-- String wrapper for `replaceAllL` (JS global `replace`). -/
def sReplaceAll (s pat rep : String) : String :=
  String.mk (replaceAllL s.data pat.data rep.data)

/-- String wrapper for `lowerL` (JS `toLowerCase`). -/
def sLower (s : String) : String := String.mk (lowerL s.data)

/-- String wrapper for `trimL` (JS `trim`). -/
def sTrim (s : String) : String := String.mk (trimL s.data)

/-- JS `s.substring(0, n)`. -/
def sTake (s : String) (n : Nat) : String := String.mk (s.data.take n)

/-- JS `s.startsWith(p)`. -/
def sStartsWith (s p : String) : Bool := p.data.isPrefixOf s.data

/-- JS `Array.prototype.join(sep)` on a list of strings. -/
def sepJoin (sep : String) : List String → String
  | [] => ""
  | [a] => a
  | a :: b :: rest => a ++ sep ++ sepJoin sep (b :: rest)

/-! ## Data model (src/types, part_009) -/

/-- The 7-value event category enum. -/
inductive EventCategory
  | politics | economy | technology | health | environment | international | social
deriving DecidableEq, BEq

/-- The 5-value interest enum. -/
inductive Interest
  | money | work | health | environment | tech
deriving DecidableEq, BEq

/-- The 9-value career-field enum. -/
inductive CareerField
  | technology | finance | healthcare | education | government | media
  | retail | manufacturing | other
deriving DecidableEq, BEq

/-- Risk tolerance enum. -/
inductive RiskTolerance
  | low | medium | high
deriving DecidableEq, BEq

/-- A published event; `createdAt` and `expiresAt` are timestamps in integer
milliseconds (the code compares and subtracts ISO strings via `Date`). -/
structure Event where
  id : Nat
  title : String
  date : String
  category : EventCategory
  whatHappened : String
  whyPeopleCare : String
  whatThisMeans : String
  whatLikelyDoesNotChange : Option String
  createdAt : Int
  expiresAt : Int
deriving DecidableEq

/-- A user profile as consumed by the scoring and personalization code. -/
structure UserProfile where
  country : String
  careerField : CareerField
  interests : List Interest
  riskTolerance : RiskTolerance
deriving DecidableEq

/-- An event together with its personalized implications text
(`personalizedWhatThisMeans` in the source). -/
structure PersonalizedEvent where
  event : Event
  personalizedWhatThisMeans : String
deriving DecidableEq

/-- Pairing of an event with its relevance score for one selection request. -/
structure ScoredEvent where
  event : Event
  score : Int
deriving DecidableEq

/-! ## src/utils/geographicRelevance.ts -/

/-- The `searchText` built by `eventContainsCountry`: title and the three
narrative fields joined by single spaces, lowercased. -/
def eventSearchText (event : Event) : String :=
  sLower (event.title ++ " " ++ event.whatHappened ++ " " ++
    event.whyPeopleCare ++ " " ++ event.whatThisMeans)

/-- `eventContainsCountry(event, country)`: guard out empty / blank country,
then substring-match the lowercased, trimmed country against the lowercased
search text. -/
def eventContainsCountry (event : Event) (country : String) : Bool :=
  if country = "" || sTrim country = "" then
    false
  else
    sContains (eventSearchText event) (sTrim (sLower country))

/-! ## src/utils/relevanceScoring.ts (embedded in IMPROVEMENTS_ANALYSIS.md) -/

/-- The fixed interest-to-category mapping; `work` maps to two categories,
the rest to one. -/
def interestCategoryMap : Interest → List EventCategory
  | .money => [.economy]
  | .health => [.health]
  | .environment => [.environment]
  | .tech => [.technology]
  | .work => [.economy, .technology]

/-- The fixed career-field-to-category mapping; `other` maps to the empty
string in the source, i.e. no category. -/
def careerCategoryMap : CareerField → Option EventCategory
  | .technology => some .technology
  | .finance => some .economy
  | .healthcare => some .health
  | .government => some .politics
  | .media => some .social
  | .education => some .social
  | .retail => some .economy
  | .manufacturing => some .economy
  | .other => none

/-- Milliseconds in a day (`1000 * 60 * 60 * 24`). -/
def msPerDay : Nat := 1000 * 60 * 60 * 24

/-- `daysBetween(date1, date2)`: `Math.ceil(|d2 - d1| / msPerDay)` on the
millisecond timestamps. -/
def daysBetween (date1 date2 : Int) : Nat :=
  ((date2 - date1).natAbs + (msPerDay - 1)) / msPerDay

/-- `calculateRelevanceScore(event, profile)` with the evaluation time `now`
(the source reads `new Date()` at this point) made an explicit argument:
interest-, career-, geography- and recency contributions accumulated in order,
then the total clamped to at most 100. -/
def calculateRelevanceScore (event : Event) (profile : UserProfile) (now : Int) : Int :=
  let score : Int :=
    profile.interests.foldl
      (fun s i =>
        if (interestCategoryMap i).contains event.category then s + 40 else s) 0
  let score :=
    match careerCategoryMap profile.careerField with
    | some c => if c = event.category then score + 30 else score
    | none => score
  let score :=
    if profile.country ≠ "" ∧ eventContainsCountry event profile.country then
      score + 20
    else score
  let score := score + max 0 (10 - (daysBetween event.createdAt now : Int))
  min 100 score

/-! ## src/utils/personalization.ts -/

/-- The first conditional append in `personalizeEvent`: the career sentence
for economy/technology events. -/
def careerSentence (event : Event) (userProfile : UserProfile) (t : String) : String :=
  if event.category = .economy ∨ event.category = .technology then
    if userProfile.careerField = .technology ∧ event.category = .technology then
      t ++ " If you work in technology, this " ++
        (if userProfile.riskTolerance = .low then "may" else "could") ++
        " affect your industry."
    else if userProfile.careerField = .finance ∧ event.category = .economy then
      t ++ " For those in finance, this " ++
        (if userProfile.riskTolerance = .low then "may" else "could") ++
        " have implications."
    else t
  else t

/-- The second conditional append: the country sentence for
international/politics events. -/
def countrySentence (event : Event) (userProfile : UserProfile) (t : String) : String :=
  if event.category = .international ∨ event.category = .politics then
    t ++ " Depending on your location in " ++ userProfile.country ++
      ", the impact " ++
      (if userProfile.riskTolerance = .low then "may be limited" else "could vary") ++
      "."
  else t

/-- The third conditional append: the money-interest sentence. -/
def moneySentence (event : Event) (userProfile : UserProfile) (t : String) : String :=
  if userProfile.interests.contains .money ∧ event.category = .economy then
    t ++ " If financial stability is a concern, this " ++
      (if userProfile.riskTolerance = .low then "may" else "could") ++
      " be worth monitoring."
  else t

/-- The fourth conditional append: the health-interest sentence. -/
def healthSentence (event : Event) (userProfile : UserProfile) (t : String) : String :=
  if userProfile.interests.contains .health ∧ event.category = .health then
    t ++ " For those focused on health, this " ++
      (if userProfile.riskTolerance = .low then "may" else "could") ++
      " be relevant."
  else t

/-- The fifth conditional append: the environment-interest sentence. -/
def environmentSentence (event : Event) (userProfile : UserProfile) (t : String) : String :=
  if userProfile.interests.contains .environment ∧ event.category = .environment then
    t ++ " If environmental issues matter to you, this " ++
      (if userProfile.riskTolerance = .low then "may" else "could") ++
      " be significant."
  else t

/-- The value of `personalizedText` in `personalizeEvent` after the five
conditional `+=` statements, before the three global rewrites. -/
def personalizeAppendStage (event : Event) (userProfile : UserProfile) : String :=
  environmentSentence event userProfile
    (healthSentence event userProfile
      (moneySentence event userProfile
        (countrySentence event userProfile
          (careerSentence event userProfile event.whatThisMeans))))

/-- `personalizeEvent(event, userProfile)`: append the conditional career,
country and interest sentences to the base implications text
(`personalizeAppendStage`), then globally rewrite `will` to `may`,
`definitely` to `possibly` and `certainly` to `likely`, and trim. -/
def personalizeEvent (event : Event) (userProfile : UserProfile) : PersonalizedEvent :=
  let t5 := personalizeAppendStage event userProfile
  let t6 := sReplaceAll t5 "will" "may"
  let t7 := sReplaceAll t6 "definitely" "possibly"
  let t8 := sReplaceAll t7 "certainly" "likely"
  { event := event, personalizedWhatThisMeans := sTrim t8 }

/-! ## Event selector (src/services/eventService.ts, scored version) -/

/-- The hardcoded minimum relevance threshold in `getActiveEvent`. -/
def MIN_RELEVANCE_THRESHOLD : Int := 20

/-- The threshold filter: `scoredEvents.filter(se => se.score >= MIN_RELEVANCE_THRESHOLD)`. -/
def relevantFilter (scored : List ScoredEvent) : List ScoredEvent :=
  scored.filter (fun se => MIN_RELEVANCE_THRESHOLD ≤ se.score)

/-- Ordering used by the selector's sort comparator: score descending, ties
broken by creation time descending. -/
def scoredBefore (a b : ScoredEvent) : Prop :=
  b.score < a.score ∨ (a.score = b.score ∧ b.event.createdAt ≤ a.event.createdAt)

instance : DecidableRel scoredBefore := fun a b => by
  unfold scoredBefore; infer_instance

/-- Ordering by creation time descending: the storage query's
`order('created_at', descending)` and the fallback sort comparator. -/
def moreRecent (a b : Event) : Prop := b.createdAt ≤ a.createdAt

instance : DecidableRel moreRecent := fun a b => by
  unfold moreRecent; infer_instance

/-- `getActiveEvent(userId)` with its storage interactions made explicit:
`profileOpt` is the profile-row lookup result, `storage` the events table and
`now` the clock reading used for the expiry comparison and for scoring.
Missing profile yields `none`; otherwise the non-expired events are scored,
threshold-filtered and sorted, falling back to the most recent non-expired
event when no event passes the threshold; the chosen event is personalized. -/
def getActiveEvent (profileOpt : Option UserProfile) (storage : List Event)
    (now : Int) : Option PersonalizedEvent :=
  match profileOpt with
  | none => none
  | some profile =>
    let mappedEvents :=
      List.insertionSort moreRecent (storage.filter (fun e => now < e.expiresAt))
    match mappedEvents with
    | [] => none
    | e0 :: rest =>
      let scored := (e0 :: rest).map
        (fun e => ScoredEvent.mk e (calculateRelevanceScore e profile now))
      let relevantEvents := relevantFilter scored
      let sortedRelevant := List.insertionSort scoredBefore relevantEvents
      let selectedEvent :=
        match sortedRelevant with
        | se :: _ => se.event
        | [] =>
          match List.insertionSort moreRecent (e0 :: rest) with
          | e :: _ => e
          | [] => e0
      some (personalizeEvent selectedEvent profile)

/-! ## Content cleaner (src/services/aiExtractionService.ts, extractMainContent) -/

/-- Case-insensitive prefix test, used to model the `i` regex flag. -/
def ciPre (p s : List Char) : Bool := p.isPrefixOf (lowerL s)

/-- Drop through the first case-insensitive occurrence of `pat`, returning what
follows it, or `none` when `pat` never occurs. -/
def ciDropThrough (pat : List Char) : List Char → Option (List Char)
  | [] => if pat.isEmpty then some [] else none
  | c :: t =>
    if ciPre pat (c :: t) then some ((c :: t).drop pat.length)
    else ciDropThrough pat t

/-- Content strictly before the first case-insensitive occurrence of `pat`,
or `none` when `pat` never occurs. -/
def ciTakeUntil (pat : List Char) : List Char → Option (List Char)
  | [] => if pat.isEmpty then some [] else none
  | c :: t =>
    if ciPre pat (c :: t) then some []
    else (ciTakeUntil pat t).map (fun r => c :: r)

/-- Helper for one block match `openTag[^>]*>[\s\S]*?closeTag`: assuming `s`
starts (case-insensitively) with `openTag`, find the closing `>` of the open
tag and then the first occurrence of `closeTag`; return what follows it. -/
def findBlockEnd (openTag closeTag s : List Char) : Option (List Char) :=
  match (s.drop openTag.length).dropWhile (fun c => c ≠ '>') with
  | [] => none
  | _ :: afterGt => ciDropThrough closeTag afterGt

/-- Global removal of `openTag[^>]*>[\s\S]*?closeTag` blocks (the
`<script...>...</script>` and `<style...>...</style>` regexes, `gi` flags). -/
def goRemoveBlocks (openTag closeTag : List Char) : Nat → List Char → List Char
  | 0, s => s
  | fuel + 1, [] => []
  | fuel + 1, c :: t =>
    if ciPre openTag (c :: t) then
      match findBlockEnd openTag closeTag (c :: t) with
      | some rest => goRemoveBlocks openTag closeTag fuel rest
      | none => c :: goRemoveBlocks openTag closeTag fuel t
    else c :: goRemoveBlocks openTag closeTag fuel t

/-- Wrapper fixing the fuel of `goRemoveBlocks` to the input length. -/
def removeBlocks (openTag closeTag : String) (s : List Char) : List Char :=
  goRemoveBlocks openTag.data closeTag.data s.length s

/-- First match of `openTag[^>]*>([\s\S]*?)closeTag` (flag `i`), returning the
captured group, as used for the `<article>` / `<main>` extraction. -/
def ciCapture (openTag closeTag : List Char) : List Char → Option (List Char)
  | [] => none
  | c :: t =>
    if ciPre openTag (c :: t) then
      match
        (match ((c :: t).drop openTag.length).dropWhile (fun d => d ≠ '>') with
         | [] => none
         | _ :: afterGt => ciTakeUntil closeTag afterGt) with
      | some captured => some captured
      | none => ciCapture openTag closeTag t
    else ciCapture openTag closeTag t

/-- Global replacement of `<[^>]+>` by a single space (the tag-stripping
regex). -/
def goStripTags : Nat → List Char → List Char
  | 0, s => s
  | fuel + 1, [] => []
  | fuel + 1, c :: t =>
    if c = '<' then
      match t.dropWhile (fun d => d ≠ '>') with
      | [] => c :: goStripTags fuel t
      | _ :: rest =>
        if (t.takeWhile (fun d => d ≠ '>')).isEmpty then c :: goStripTags fuel t
        else ' ' :: goStripTags fuel rest
    else c :: goStripTags fuel t

/-- Worker for whitespace collapsing (`\s+` to one space); the flag records
whether the previous character was whitespace already swallowed. -/
def goCollapseWs : Bool → List Char → List Char
  | _, [] => []
  | prevWs, c :: t =>
    if c.isWhitespace then
      if prevWs then goCollapseWs true t
      else ' ' :: goCollapseWs true t
    else c :: goCollapseWs false t

/-- JS `s.replace(/\s+/g, ' ')`. -/
def collapseWs (l : List Char) : List Char := goCollapseWs false l

/-- Global replacement of `\n{3,}` by exactly two newlines (Markdown branch). -/
def goCollapseNl : Nat → List Char → List Char
  | 0, s => s
  | fuel + 1, [] => []
  | fuel + 1, c :: t =>
    if c = '\n' then
      (if ((c :: t).takeWhile (fun d => d = '\n')).length ≥ 3 then ['\n', '\n']
       else (c :: t).takeWhile (fun d => d = '\n')) ++
        goCollapseNl fuel ((c :: t).dropWhile (fun d => d = '\n'))
    else c :: goCollapseNl fuel t

/-- `extractMainContent(content, isMarkdown)`: Markdown is newline-collapsed,
trimmed, and truncated to 12000 characters; HTML loses script/style blocks,
is narrowed to the first `<article>` (else `<main>`) content, stripped of
tags, entity-decoded, whitespace-collapsed, trimmed and truncated to 8000. -/
def extractMainContent (content : String) (isMarkdown : Bool) : String :=
  if isMarkdown then
    sTake (String.mk (trimL (goCollapseNl content.data.length content.data))) 12000
  else
    let text := removeBlocks "<script" "</script>" content.data
    let text := removeBlocks "<style" "</style>" text
    let text :=
      match ciCapture "<article".data "</article>".data text with
      | some captured => captured
      | none =>
        match ciCapture "<main".data "</main>".data text with
        | some captured => captured
        | none => text
    let text := goStripTags text.length text
    let text := replaceAllL text "&nbsp;".data " ".data
    let text := replaceAllL text "&amp;".data "&".data
    let text := replaceAllL text "&lt;".data "<".data
    let text := replaceAllL text "&gt;".data ">".data
    let text := replaceAllL text "&quot;".data "\"".data
    let text := replaceAllL text "&#39;".data "\x27".data
    let text := trimL (collapseWs text)
    String.mk (text.take 8000)

/-! ## Extraction orchestrator (src/services/aiExtractionService.ts) -/

/-- Error kinds thrown by the Groq extraction path; `errorMessage` reproduces
the thrown message strings. -/
inductive ExtractError
  | missingApiKey
  | insufficientContent
  | emptyResponse
  | modelCallFailure (msg : String)
  | parseFailure (offendingText : String)
  | missingFields (fields : List String)
  | invalidCategory (value : Option String)
deriving DecidableEq

/-- The raw payload parsed from the model response; every field may be absent
(the source receives `any` from `JSON.parse`). -/
structure ExtractedPayload where
  title : Option String
  date : Option String
  category : Option String
  what_happened : Option String
  why_people_care : Option String
  what_this_means : Option String
  what_likely_does_not_change : Option String
deriving DecidableEq

/-- The 7 allowed category strings (`validCategories` in the source). -/
def validCategories : List String :=
  ["politics", "economy", "technology", "health", "environment", "international", "social"]

/-- One required-field check from `validateExtractedData`: absent, empty, or
blank-after-trimming counts as missing (`!x || (typeof x === 'string' && x.trim() === '')`). -/
def isFieldMissing : Option String → Bool
  | none => true
  | some s => s = "" || sTrim s = ""

/-- The list of missing required fields, in the order the source checks them. -/
def missingFieldsOf (extracted : ExtractedPayload) : List String :=
  (if isFieldMissing extracted.title then ["title"] else []) ++
  (if isFieldMissing extracted.what_happened then ["what_happened"] else []) ++
  (if isFieldMissing extracted.why_people_care then ["why_people_care"] else []) ++
  (if isFieldMissing extracted.what_this_means then ["what_this_means"] else [])

/-- Category acceptance: present, non-empty and one of the 7 allowed values
(`!extracted.category || !validCategories.includes(extracted.category)` fails). -/
def categoryAccepted : Option String → Bool
  | none => false
  | some c => c ≠ "" && validCategories.contains c

/-- `validateExtractedData(extracted)` with the clock's `new Date()` date made
the explicit argument `today`: first the missing-required-fields check (which
throws before the category is ever examined), then the category check, then
the silent date default. -/
def validateExtractedData (today : String) (extracted : ExtractedPayload) :
    Except ExtractError ExtractedPayload :=
  let missing := missingFieldsOf extracted
  if missing ≠ [] then
    .error (.missingFields missing)
  else if ¬ categoryAccepted extracted.category then
    .error (.invalidCategory extracted.category)
  else
    match extracted.date with
    | none => .ok { extracted with date := some today }
    | some d => if d = "" then .ok { extracted with date := some today } else .ok extracted

/-- The message text of each thrown error, as in the source. -/
def errorMessage : ExtractError → String
  | .missingApiKey =>
      "Groq API key is not configured. Please set EXPO_PUBLIC_GROQ_API_KEY in your .env file or environment variables."
  | .insufficientContent => "Could not extract sufficient content from the webpage"
  | .emptyResponse => "Empty response from Groq API"
  | .modelCallFailure msg => msg
  | .parseFailure offendingText => "Failed to parse JSON from: " ++ offendingText
  | .missingFields fields =>
      "Extraction missing required fields: " ++ sepJoin ", " fields
  | .invalidCategory value =>
      "Invalid category: " ++
        (match value with
         | some c => if c = "" then "missing" else c
         | none => "missing") ++
        ". Must be one of: " ++ sepJoin ", " validCategories

/-- Strip a leading fence marker and following whitespace
(`replace(/^```json\s*/i, '')` and `replace(/^```\s*/i, '')`). -/
def stripLeadFence (marker : String) (l : List Char) : List Char :=
  if marker.data.isPrefixOf l then
    (l.drop marker.length).dropWhile Char.isWhitespace
  else l

/-- Strip a trailing ```` ``` ```` fence together with surrounding whitespace
(`replace(/\s*```\s*$/i, '')`); no change when no fence closes the string. -/
def stripTrailFence (l : List Char) : List Char :=
  let r := l.reverse.dropWhile Char.isWhitespace
  if "```".data.reverse.isPrefixOf r then
    ((r.drop 3).dropWhile Char.isWhitespace).reverse
  else l

/-- The `match(/\{[\s\S]*\}/)` step: the greedy match runs from the first `{`
to the last `}`; when there is no such pair the text is left unchanged. -/
def braceExtract (l : List Char) : List Char :=
  match l.dropWhile (fun c => c ≠ '\x7b') with
  | [] => l
  | fromBrace =>
    match fromBrace.reverse.dropWhile (fun c => c ≠ '\x7d') with
    | [] => l
    | revKept => revKept.reverse

/-- `parseJsonResponse(responseText)` with the `JSON.parse` builtin passed in
as `jsonParse` (returning `none` on a syntax error): trim, strip Markdown code
fences, extract the brace-delimited region, re-trim, then strict parse. -/
def parseJsonResponse (jsonParse : String → Option ExtractedPayload)
    (responseText : String) : Except ExtractError ExtractedPayload :=
  let jsonText := trimL responseText.data
  let jsonText :=
    if sStartsWith (String.mk jsonText) "```json" then stripLeadFence "```json" jsonText |> stripTrailFence
    else if sStartsWith (String.mk jsonText) "```" then stripLeadFence "```" jsonText |> stripTrailFence
    else jsonText
  let jsonText := braceExtract jsonText
  let jsonText := trimL jsonText
  match jsonParse (String.mk jsonText) with
  | some v => .ok v
  | none => .error (.parseFailure (String.mk jsonText))

/-- The fixed extraction prompt (`EXTRACTION_PROMPT` in src/config/aiConfig.ts). -/
def EXTRACTION_PROMPT : String :=
  "Extract structured information from this article and format it as JSON.\n\nREQUIRED fields (must be provided, cannot be null or empty):\n1. title: The article title (REQUIRED - extract from the article)\n2. what_happened: A factual summary of what happened (REQUIRED - 2-3 sentences, neutral tone)\n3. why_people_care: Context explaining why this matters (REQUIRED - 2-3 sentences)\n4. what_this_means: Base implications of this event (REQUIRED - 2-3 sentences, use conditional language like \"may\", \"could\", \"might\")\n5. category: One of: politics, economy, technology, health, environment, international, social (REQUIRED - choose the most appropriate)\n\nOPTIONAL fields:\n6. date: The publication date (format: YYYY-MM-DD, or infer from content if not available - can be today's date if not found)\n7. what_likely_does_not_change: What remains unchanged (1-2 sentences, optional field - can be null)\n\nImportant guidelines:\n- Use neutral, factual language\n- Avoid sensationalism or urgency\n- Use conditional language (may, could, might) rather than definitive statements\n- Keep summaries concise but informative\n- ALL REQUIRED fields must have non-empty string values\n- If date cannot be determined, use today's date in YYYY-MM-DD format\n- If what_likely_does_not_change cannot be determined, use null\n\nReturn ONLY valid JSON matching this exact schema (no markdown, no code blocks, just pure JSON):\n\x7b\n  \"title\": \"string value here\",\n  \"date\": \"YYYY-MM-DD\",\n  \"category\": \"one of the categories listed above\",\n  \"what_happened\": \"string value here\",\n  \"why_people_care\": \"string value here\",\n  \"what_this_means\": \"string value here\",\n  \"what_likely_does_not_change\": \"string value or null\"\n\x7d"

/-- `extractFromHtmlWithGroq(content, isMarkdown)` with its external
collaborators explicit: `groqApiKey` from the configuration, `llm` the Groq
chat-completion call (given the full prompt, returning the completion text or
a transport failure) and `jsonParse` the JSON builtin. The content is cleaned
first and the insufficient-content check runs before `llm` is ever consulted. -/
def extractFromHtmlWithGroq (groqApiKey : String)
    (llm : String → Except ExtractError String)
    (jsonParse : String → Option ExtractedPayload)
    (today : String) (content : String) (isMarkdown : Bool) :
    Except ExtractError ExtractedPayload :=
  if groqApiKey = "" then .error .missingApiKey
  else
    let mainContent := extractMainContent content isMarkdown
    if mainContent = "" ∨ mainContent.length < 100 then .error .insufficientContent
    else
      match llm (EXTRACTION_PROMPT ++ "\n\nArticle content:\n\n" ++ mainContent) with
      | .error e => .error e
      | .ok responseText =>
        if responseText = "" then .error .emptyResponse
        else
          match parseJsonResponse jsonParse responseText with
          | .error e => .error e
          | .ok extracted => validateExtractedData today extracted

/-! ## Draft lifecycle (src/services/draftService.ts and the event_drafts schema) -/

/-- The draft status enum (`status TEXT NOT NULL CHECK (status IN
('extracting', 'draft', 'published', 'rejected'))`). -/
inductive DraftStatus
  | extracting | draft | published | rejected
deriving DecidableEq, BEq

/-- A row of the `event_drafts` table. The `status` column is NOT NULL; the
content columns are nullable, hence `Option`. -/
structure DraftRow where
  id : Nat
  adminId : Nat
  sourceUrl : String
  extractedData : String
  title : Option String
  date : Option String
  category : Option EventCategory
  whatHappened : Option String
  whyPeopleCare : Option String
  whatThisMeans : Option String
  whatLikelyDoesNotChange : Option String
  status : DraftStatus
  createdAt : Int
deriving DecidableEq

/-- A `Partial<EventDraft>` as passed to `createDraft` / `updateDraft`:
`none` models an absent (`undefined`) property. -/
structure DraftUpdate where
  title : Option String := none
  date : Option String := none
  category : Option EventCategory := none
  whatHappened : Option String := none
  whyPeopleCare : Option String := none
  whatThisMeans : Option String := none
  whatLikelyDoesNotChange : Option String := none
  status : Option DraftStatus := none
deriving DecidableEq

/-- The empty partial update. -/
def emptyUpdate : DraftUpdate := {}

/-- JS `x || null` on an optional string: an absent or empty-string value
becomes null. -/
def jsOrNull : Option String → Option String
  | none => none
  | some s => if s = "" then none else some s

/-- `createDraft(sourceUrl, extractedData, eventData)` against an explicit
row list: the authenticated admin id, the generated row id and the row
creation time are parameters. The inserted row takes every content column
from `eventData?.field || null` and the status is always the literal
`'draft'`. Returns the inserted row and the new table state. -/
def createDraft (db : List DraftRow) (newId adminId : Nat) (createdAt : Int)
    (sourceUrl : String) (extractedData : String) (eventData : DraftUpdate) :
    Option DraftRow × List DraftRow :=
  let row : DraftRow :=
    { id := newId
      adminId := adminId
      sourceUrl := sourceUrl
      extractedData := extractedData
      title := jsOrNull eventData.title
      date := jsOrNull eventData.date
      category := eventData.category
      whatHappened := jsOrNull eventData.whatHappened
      whyPeopleCare := jsOrNull eventData.whyPeopleCare
      whatThisMeans := jsOrNull eventData.whatThisMeans
      whatLikelyDoesNotChange := jsOrNull eventData.whatLikelyDoesNotChange
      status := .draft
      createdAt := createdAt }
  (some row, db ++ [row])

/-- `updateDraft(draftId, updates)` against an explicit row list. The update
payload sets every column to `updates.field || null`; in particular the
`status` column is set to `updates.status || null`, and because the schema
declares `status NOT NULL`, an update that carries no status fails outright
(the row store rejects it, `updateDraft` returns null, the table is
unchanged). A missing row likewise yields null. -/
def updateDraft (db : List DraftRow) (draftId : Nat) (updates : DraftUpdate) :
    Option DraftRow × List DraftRow :=
  match db.find? (fun r => r.id = draftId) with
  | none => (none, db)
  | some row =>
    match updates.status with
    | none => (none, db)
    | some st =>
      let newRow : DraftRow :=
        { row with
          title := jsOrNull updates.title
          date := jsOrNull updates.date
          category := updates.category
          whatHappened := jsOrNull updates.whatHappened
          whyPeopleCare := jsOrNull updates.whyPeopleCare
          whatThisMeans := jsOrNull updates.whatThisMeans
          whatLikelyDoesNotChange := jsOrNull updates.whatLikelyDoesNotChange
          status := st }
      (some newRow, db.map (fun r => if r.id = draftId then newRow else r))

/-- The draft operations the admin screen performs (part_006):
extraction saves a draft via `createDraft`, the save button calls
`updateDraft` with content fields and no status, and publishing calls
`updateDraft` with `{ status: 'published' }` only. -/
inductive AdminOp
  | create (newId adminId : Nat) (createdAt : Int)
      (sourceUrl extractedData : String) (fields : DraftUpdate)
  | save (draftId : Nat) (fields : DraftUpdate)
  | publish (draftId : Nat)

/-- Apply one admin-flow operation to the draft table. -/
def applyAdminOp (db : List DraftRow) : AdminOp → List DraftRow
  | .create newId adminId createdAt sourceUrl extractedData fields =>
    (createDraft db newId adminId createdAt sourceUrl extractedData fields).2
  | .save draftId fields =>
    (updateDraft db draftId { fields with status := none }).2
  | .publish draftId =>
    (updateDraft db draftId { emptyUpdate with status := some .published }).2

/-- Apply a sequence of admin-flow operations. -/
def applyAdminOps (ops : List AdminOp) (db : List DraftRow) : List DraftRow :=
  ops.foldl applyAdminOp db


/-- A replacement string `r` cannot help create a new occurrence of `p`:
inserting `r` between two `p`-free strings keeps the result `p`-free. -/
def Blocker (p r : List Char) : Prop :=
  ∀ x y : List Char,
    listContains x p = false → listContains y p = false →
      listContains (x ++ (r ++ y)) p = false

/-! ## Named sub-scores of `calculateRelevanceScore` and spec-side predicates -/

/-- The interest-matching contribution (the `forEach` accumulation). -/
def interestScore (event : Event) (profile : UserProfile) : Int :=
  profile.interests.foldl
    (fun s i => if (interestCategoryMap i).contains event.category then s + 40 else s) 0

/-- The career-matching contribution. -/
def careerScore (event : Event) (profile : UserProfile) : Int :=
  match careerCategoryMap profile.careerField with
  | some c => if c = event.category then 30 else 0
  | none => 0

/-- The geographic contribution. -/
def geographicScore (event : Event) (profile : UserProfile) : Int :=
  if profile.country ≠ "" ∧ eventContainsCountry event profile.country then 20 else 0

/-- The recency contribution. -/
def recencyScore (createdAt now : Int) : Int :=
  max 0 (10 - (daysBetween createdAt now : Int))

/-- The geographic-match condition as the specification words it: the
profile's country string, trimmed, is non-empty and, compared
case-insensitively, appears as a substring anywhere in the concatenation of
the event's title and its three narrative fields. -/
def specGeoMatch (event : Event) (country : String) : Bool :=
  sTrim country ≠ "" &&
    sContains (eventSearchText event) (sLower (sTrim country))

/-! ## Concrete sample data for witnesses and counterexamples -/

/-- A sample event used by witnesses. -/
def sampleEvent : Event :=
  { id := 1, title := "Breaking news from France today", date := "2026-01-05",
    category := .economy, whatHappened := "Something happened.",
    whyPeopleCare := "It matters.", whatThisMeans := "Prices may change.",
    whatLikelyDoesNotChange := none, createdAt := 0, expiresAt := 1000 }

/-- A sample profile used by witnesses. -/
def sampleProfile : UserProfile :=
  { country := "France", careerField := .finance, interests := [.money],
    riskTolerance := .low }

/-- An event whose implications text ends in `wil` directly followed by
`certainly`: the `certainly`-to-`likely` rewrite then manufactures `will`. -/
def willEvent : Event :=
  { id := 2, title := "T", date := "2026-01-05", category := .social,
    whatHappened := "W", whyPeopleCare := "C", whatThisMeans := "wilcertainly",
    whatLikelyDoesNotChange := none, createdAt := 0, expiresAt := 1000 }

/-- A payload that lacks `why_people_care` and carries the out-of-enum
category `sports`. -/
def sportsPayload : ExtractedPayload :=
  { title := some "A headline", date := some "2026-01-05",
    category := some "sports", what_happened := some "Something happened.",
    why_people_care := none, what_this_means := some "It may matter.",
    what_likely_does_not_change := none }

/-- A draft row holding content, as stored after a successful extraction. -/
def sampleDraft : DraftRow :=
  { id := 7, adminId := 3, sourceUrl := "example.com/story",
    extractedData := "raw", title := some "Draft title",
    date := some "2026-01-05", category := some .economy,
    whatHappened := some "H", whyPeopleCare := some "P",
    whatThisMeans := some "M", whatLikelyDoesNotChange := none,
    status := .draft, createdAt := 0 }

/-! ## Substring combinatorics for the embedded string primitives -/

theorem isPrefixOf_iff {l₁ l₂ : List Char} : l₁.isPrefixOf l₂ = true ↔ l₁ <+: l₂ :=
  List.isPrefixOf_iff_prefix

theorem isSuffixOf_iff {l₁ l₂ : List Char} : l₁.isSuffixOf l₂ = true ↔ l₁ <:+ l₂ :=
  List.isSuffixOf_iff_suffix

theorem nilPre {l : List Char} : [] <+: l := List.nil_prefix

theorem nilSub {l : List Char} : [] <:+: l := List.nil_infix

theorem preToSub {l₁ l₂ : List Char} (h : l₁ <+: l₂) : l₁ <:+: l₂ :=
  List.IsPrefix.isInfix h

theorem sufToSub {l₁ l₂ : List Char} (h : l₁ <:+ l₂) : l₁ <:+: l₂ :=
  List.IsSuffix.isInfix h

theorem listContains_iff (s p : List Char) : listContains s p = true ↔ p <:+: s := by
  induction s with
  | nil =>
    rw [listContains]
    simp only [Bool.or_false, List.infix_nil]
    rw [isPrefixOf_iff, List.prefix_nil]
  | cons c t ih =>
    rw [listContains]
    simp only [Bool.or_eq_true]
    rw [isPrefixOf_iff, ih, List.infix_cons_iff]

theorem listContains_eq_false_iff (s p : List Char) :
    listContains s p = false ↔ ¬ p <:+: s := by
  rw [← listContains_iff]
  cases listContains s p <;> simp

theorem contains_false_of_sub {s x p : List Char}
    (h : listContains s p = false) (hx : x <:+: s) : listContains x p = false := by
  rw [listContains_eq_false_iff] at h ⊢
  exact fun hc => h (hc.trans hx)

theorem prefixSplit {p a b : List Char} (h : p <+: a ++ b) :
    p <+: a ∨ ∃ t, p = a ++ t ∧ t <+: b := by
  induction a generalizing p with
  | nil => exact Or.inr ⟨p, rfl, h⟩
  | cons c a ih =>
    cases p with
    | nil => exact Or.inl nilPre
    | cons d p2 =>
      rw [List.cons_append, List.cons_prefix_cons] at h
      obtain ⟨rfl, h2⟩ := h
      rcases ih h2 with h3 | ⟨t, rfl, ht⟩
      · exact Or.inl (List.cons_prefix_cons.mpr ⟨rfl, h3⟩)
      · exact Or.inr ⟨t, rfl, ht⟩

theorem infixSpan {p a b : List Char} (h : p <:+: a ++ b) :
    p <:+: a ∨ p <:+: b ∨
      ∃ s t, s ++ t = p ∧ s ≠ [] ∧ t ≠ [] ∧ s <:+ a ∧ t <+: b := by
  induction a generalizing p with
  | nil => exact Or.inr (Or.inl h)
  | cons c a ih =>
    rw [List.cons_append, List.infix_cons_iff] at h
    rcases h with h | h
    · cases p with
      | nil => exact Or.inl nilSub
      | cons d p2 =>
        rw [List.cons_prefix_cons] at h
        obtain ⟨rfl, h2⟩ := h
        rcases prefixSplit h2 with h3 | ⟨t, rfl, ht⟩
        · exact Or.inl (preToSub (List.cons_prefix_cons.mpr ⟨rfl, h3⟩))
        · cases t with
          | nil =>
            refine Or.inl ?_
            have hdp : d :: (a ++ []) <+: d :: a := by simp
            exact preToSub hdp
          | cons e t2 =>
            refine Or.inr (Or.inr ⟨d :: a, e :: t2, by simp, by simp, by simp, ?_, ht⟩)
            exact List.suffix_rfl
    · rcases ih h with h3 | h3 | ⟨s, t, rfl, hs, ht, hsa, htb⟩
      · exact Or.inl (List.infix_cons h3)
      · exact Or.inr (Or.inl h3)
      · exact Or.inr (Or.inr ⟨s, t, rfl, hs, ht, hsa.trans (List.suffix_cons c a), htb⟩)

theorem mkBlocker {p r : List Char} (hp : p ≠ [])
    (hnr : listContains r p = false)
    (h1 : ∀ k, k < p.length → 1 ≤ k → (p.take k).isSuffixOf r = false)
    (h2 : ∀ k, k < p.length → 1 ≤ k → (p.drop k).isPrefixOf r = false)
    (h3 : ∀ k, k < p.length → 1 ≤ k → r.isPrefixOf (p.drop k) = false) :
    Blocker p r := by
  intro x y hx hy
  rw [listContains_eq_false_iff] at hx hy hnr ⊢
  intro hocc
  rcases infixSpan hocc with hocc | hocc | ⟨s, t, hst, hs, ht, hsx, htRy⟩
  · exact hx hocc
  · rcases infixSpan hocc with hocc | hocc | ⟨s, t, hst, hs, ht, hsr, hty⟩
    · exact hnr hocc
    · exact hy hocc
    · -- s is a nonempty proper prefix of p and a suffix of r
      have hk1 : 1 ≤ s.length := by
        cases s with
        | nil => exact absurd rfl hs
        | cons _ _ => simp
      have hklt : s.length < p.length := by
        have : p.length = s.length + t.length := by rw [← hst, List.length_append]
        have htl : 0 < t.length := List.length_pos.mpr ht
        omega
      have htake : p.take s.length = s := by rw [← hst, List.take_left]
      have := h1 s.length hklt hk1
      rw [htake] at this
      rw [← isSuffixOf_iff] at hsr
      rw [this] at hsr
      exact Bool.false_ne_true hsr
  · -- the occurrence starts inside x: t is a nonempty proper suffix of p
    have hk1 : 1 ≤ s.length := by
      cases s with
      | nil => exact absurd rfl hs
      | cons _ _ => simp
    have hklt : s.length < p.length := by
      have : p.length = s.length + t.length := by rw [← hst, List.length_append]
      have htl : 0 < t.length := List.length_pos.mpr ht
      omega
    have hdrop : p.drop s.length = t := by rw [← hst, List.drop_left]
    rcases prefixSplit htRy with htr | ⟨t2, hteq, _⟩
    · have := h2 s.length hklt hk1
      rw [hdrop] at this
      rw [← isPrefixOf_iff] at htr
      rw [this] at htr
      exact Bool.false_ne_true htr
    · have hrt : r <+: t := ⟨t2, hteq.symm⟩
      have := h3 s.length hklt hk1
      rw [hdrop] at this
      rw [← isPrefixOf_iff] at hrt
      rw [this] at hrt
      exact Bool.false_ne_true hrt

theorem goSplit_zero (s pat : List Char) : goSplit 0 s pat = [s] := rfl

theorem goSplit_succ (fuel : Nat) (s pat : List Char) :
    goSplit (fuel + 1) s pat =
      if pat.isPrefixOf s then [] :: goSplit fuel (s.drop pat.length) pat
      else
        match s with
        | [] => [[]]
        | c :: t =>
          match goSplit fuel t pat with
          | [] => [[c]]
          | a :: rest => (c :: a) :: rest := rfl

theorem goRepl_zero (s pat rep : List Char) : goRepl 0 s pat rep = s := rfl

theorem goRepl_succ (fuel : Nat) (s pat rep : List Char) :
    goRepl (fuel + 1) s pat rep =
      if pat.isPrefixOf s then rep ++ goRepl fuel (s.drop pat.length) pat rep
      else
        match s with
        | [] => []
        | c :: t => c :: goRepl fuel t pat rep := rfl

theorem goSplit_ne_nil (fuel : Nat) (s pat : List Char) : goSplit fuel s pat ≠ [] := by
  cases fuel with
  | zero => simp [goSplit_zero]
  | succ fuel =>
    rw [goSplit_succ]
    split
    · simp
    · cases s with
      | nil => simp
      | cons c t =>
        rcases hsp : goSplit fuel t pat with _ | ⟨a, rest⟩ <;> simp [hsp]

theorem goRepl_eq_intercalate (fuel : Nat) (s pat rep : List Char) :
    goRepl fuel s pat rep = myIntercalate rep (goSplit fuel s pat) := by
  induction fuel generalizing s with
  | zero => simp [goRepl_zero, goSplit_zero, myIntercalate]
  | succ fuel ih =>
    rw [goRepl_succ, goSplit_succ]
    split
    · rw [ih]
      have hne := goSplit_ne_nil fuel (s.drop pat.length) pat
      rcases hsp : goSplit fuel (s.drop pat.length) pat with _ | ⟨a, rest⟩
      · exact absurd hsp hne
      · simp [myIntercalate]
    · cases s with
      | nil => simp [myIntercalate]
      | cons c t =>
        simp only
        rw [ih]
        rcases hsp : goSplit fuel t pat with _ | ⟨a, rest⟩
        · simp [myIntercalate]
        · cases rest with
          | nil => simp [myIntercalate]
          | cons b more => simp [myIntercalate]

theorem goSplit_first_take (fuel : Nat) (s pat : List Char) {a : List Char}
    {rest : List (List Char)} (h : goSplit fuel s pat = a :: rest) : a <+: s := by
  induction fuel generalizing s a rest with
  | zero =>
    rw [goSplit_zero] at h
    injection h with h1 _
    exact h1 ▸ List.prefix_refl a
  | succ fuel ih =>
    rw [goSplit_succ] at h
    split at h
    · injection h with h1 _
      exact h1 ▸ nilPre
    · cases s with
      | nil =>
        simp only at h
        injection h with h1 _
        exact h1 ▸ nilPre
      | cons c t =>
        simp only at h
        rcases hsp : goSplit fuel t pat with _ | ⟨a0, r0⟩
        · rw [hsp] at h
          simp only at h
          injection h with h1 _
          subst h1
          simp
        · rw [hsp] at h
          simp only at h
          injection h with h1 _
          subst h1
          exact List.cons_prefix_cons.mpr ⟨rfl, ih t hsp⟩

theorem listContains_nil (p : List Char) (hp : p ≠ []) : listContains [] p = false := by
  rw [listContains]
  cases p with
  | nil => exact absurd rfl hp
  | cons c q => simp [List.isPrefixOf]

theorem listContains_cons (c : Char) (t p : List Char) :
    listContains (c :: t) p = (p.isPrefixOf (c :: t) || listContains t p) := by
  rw [listContains]

theorem goSplit_free (fuel : Nat) (s pat : List Char) (hp : pat ≠ [])
    (hf : s.length ≤ fuel) :
    ∀ seg ∈ goSplit fuel s pat, listContains seg pat = false := by
  induction fuel generalizing s with
  | zero =>
    intro seg hseg
    have : s = [] := List.length_eq_zero.mp (Nat.le_zero.mp hf)
    subst this
    rw [goSplit_zero] at hseg
    simp at hseg
    subst hseg
    exact listContains_nil pat hp
  | succ fuel ih =>
    intro seg hseg
    rw [goSplit_succ] at hseg
    split at hseg
    · rcases List.mem_cons.mp hseg with rfl | hseg2
      · exact listContains_nil pat hp
      · refine ih (s.drop pat.length) ?_ seg hseg2
        have hple : 1 ≤ pat.length := by
          cases pat with
          | nil => exact absurd rfl hp
          | cons _ _ => simp
        have := List.length_drop pat.length s
        omega
    · cases s with
      | nil =>
        simp at hseg
        subst hseg
        exact listContains_nil pat hp
      | cons c t =>
        simp only at hseg
        have hflt : t.length ≤ fuel := by
          simp at hf
          omega
        rcases hsp : goSplit fuel t pat with _ | ⟨a0, r0⟩
        · exact absurd hsp (goSplit_ne_nil fuel t pat)
        · rw [hsp] at hseg
          simp only at hseg
          rcases List.mem_cons.mp hseg with rfl | hseg2
          · -- seg = c :: a0
            rw [listContains_cons]
            have hfree : listContains a0 pat = false :=
              ih t hflt a0 (hsp ▸ List.mem_cons_self a0 r0)
            have hnotpre : pat.isPrefixOf (c :: a0) = false := by
              by_contra hcon
              have hcon2 : pat.isPrefixOf (c :: a0) = true := by
                cases hb : pat.isPrefixOf (c :: a0) with
                | false => exact absurd hb hcon
                | true => rfl
              have hpa : pat <+: c :: a0 := isPrefixOf_iff.mp hcon2
              have ha0t : a0 <+: t := goSplit_first_take fuel t pat hsp
              have hpt : pat <+: c :: t := by
                cases pat with
                | nil => exact absurd rfl hp
                | cons d q =>
                  rw [List.cons_prefix_cons] at hpa
                  exact List.cons_prefix_cons.mpr ⟨hpa.1, hpa.2.trans ha0t⟩
              rename_i hnp
              exact hnp (isPrefixOf_iff.mpr hpt)
            rw [hnotpre, hfree]
            rfl
          · exact ih t hflt seg (hsp ▸ List.mem_cons_of_mem a0 hseg2)

theorem goSplit_infixes (fuel : Nat) (s pat : List Char) :
    ∀ seg ∈ goSplit fuel s pat, seg <:+: s := by
  induction fuel generalizing s with
  | zero =>
    intro seg hseg
    rw [goSplit_zero] at hseg
    simp at hseg
    subst hseg
    exact List.infix_refl _
  | succ fuel ih =>
    intro seg hseg
    rw [goSplit_succ] at hseg
    split at hseg
    · rcases List.mem_cons.mp hseg with rfl | hseg2
      · exact nilSub
      · exact (ih (s.drop pat.length) seg hseg2).trans (sufToSub (List.drop_suffix pat.length s))
    · cases s with
      | nil =>
        simp at hseg
        subst hseg
        exact List.infix_refl []
      | cons c t =>
        simp only at hseg
        rcases hsp : goSplit fuel t pat with _ | ⟨a0, r0⟩
        · exact absurd hsp (goSplit_ne_nil fuel t pat)
        · rw [hsp] at hseg
          simp only at hseg
          rcases List.mem_cons.mp hseg with rfl | hseg2
          · have ha0t : a0 <+: t := goSplit_first_take fuel t pat hsp
            exact preToSub (List.cons_prefix_cons.mpr ⟨rfl, ha0t⟩)
          · exact List.infix_cons (ih t seg (hsp ▸ List.mem_cons_of_mem a0 hseg2))

theorem myIntercalate_free {pat rep : List Char} (hp : pat ≠ []) (hb : Blocker pat rep)
    (segs : List (List Char)) (hsegs : ∀ seg ∈ segs, listContains seg pat = false) :
    listContains (myIntercalate rep segs) pat = false := by
  induction segs with
  | nil => exact listContains_nil pat hp
  | cons a rest ih =>
    cases rest with
    | nil =>
      exact hsegs a (List.mem_cons_self a [])
    | cons b more =>
      have h1 : listContains a pat = false := hsegs a (List.mem_cons_self a _)
      have h2 : listContains (myIntercalate rep (b :: more)) pat = false :=
        ih (fun seg hseg => hsegs seg (List.mem_cons_of_mem a hseg))
      have hres := hb a (myIntercalate rep (b :: more)) h1 h2
      rw [myIntercalate, List.append_assoc]
      exact hres

theorem replaceAll_no_occurrence {pat rep : List Char} (s : List Char)
    (hp : pat ≠ []) (hb : Blocker pat rep) :
    listContains (replaceAllL s pat rep) pat = false := by
  rw [replaceAllL]
  have : pat.isEmpty = false := by
    cases pat with
    | nil => exact absurd rfl hp
    | cons _ _ => rfl
  rw [this]
  simp only [Bool.false_eq_true, if_false]
  rw [goRepl_eq_intercalate]
  exact myIntercalate_free hp hb _ (goSplit_free s.length s pat hp (le_refl _))

theorem replaceAll_preserves_free {q rep : List Char} (s pat : List Char)
    (hq : q ≠ []) (hbq : Blocker q rep) (hs : listContains s q = false) :
    listContains (replaceAllL s pat rep) q = false := by
  rw [replaceAllL]
  cases hpe : pat.isEmpty with
  | true => simpa using hs
  | false =>
    simp only [Bool.false_eq_true, if_false]
    rw [goRepl_eq_intercalate]
    refine myIntercalate_free hq hbq _ ?_
    intro seg hseg
    exact contains_false_of_sub hs (goSplit_infixes s.length s pat seg hseg)

theorem replaceAll_of_not_contains {pat : List Char} (s rep : List Char)
    (hs : listContains s pat = false) : replaceAllL s pat rep = s := by
  rw [replaceAllL]
  cases hpe : pat.isEmpty with
  | true => simp
  | false =>
    simp only [Bool.false_eq_true, if_false]
    have hp : pat ≠ [] := by
      cases pat with
      | nil => simp [List.isEmpty] at hpe
      | cons _ _ => simp
    clear hpe
    generalize hfuel : s.length = fuel
    have hf : s.length ≤ fuel := le_of_eq hfuel
    clear hfuel
    induction fuel generalizing s with
    | zero => rw [goRepl_zero]
    | succ fuel ih =>
      rw [goRepl_succ]
      split
      · rename_i hpre
        rw [listContains_eq_false_iff] at hs
        exact absurd (preToSub (isPrefixOf_iff.mp hpre)) hs
      · cases s with
        | nil => rfl
        | cons c t =>
          simp only
          congr 1
          refine ih t ?_ ?_
          · rw [listContains_cons] at hs
            exact (Bool.or_eq_false_iff.mp hs).2
          · simp at hf
            omega

theorem toLower_isWhitespace (c : Char) :
    (Char.toLower c).isWhitespace = c.isWhitespace := by
  unfold Char.toLower
  by_cases h : c.toNat ≥ 65 ∧ c.toNat ≤ 90
  · rw [if_pos h]
    have h91 : c.toNat < 91 := by omega
    have key : ∀ n < 91, 65 ≤ n → (Char.ofNat (n + 32)).isWhitespace = false := by decide
    have hws : c.isWhitespace = false := by
      unfold Char.isWhitespace
      have e1 : c ≠ ' ' := by intro he; subst he; simp at h
      have e2 : c ≠ '\t' := by intro he; subst he; simp at h
      have e3 : c ≠ '\x0d' := by intro he; subst he; simp at h
      have e4 : c ≠ '\n' := by intro he; subst he; simp at h
      simp [e1, e2, e3, e4]
    rw [key c.toNat h91 h.1, hws]
  · rw [if_neg h]

theorem trimL_lowerL_comm (l : List Char) : trimL (lowerL l) = lowerL (trimL l) := by
  unfold trimL lowerL
  have hcomp : (Char.isWhitespace ∘ Char.toLower) = Char.isWhitespace := by
    funext c
    exact toLower_isWhitespace c
  rw [List.dropWhile_map, hcomp, ← List.map_reverse, List.dropWhile_map, hcomp,
    ← List.map_reverse]

theorem trimL_lowerL_eq_nil (l : List Char) : trimL (lowerL l) = [] ↔ trimL l = [] := by
  rw [trimL_lowerL_comm]
  unfold lowerL
  exact List.map_eq_nil

theorem trimL_infix_self (l : List Char) : trimL l <:+: l := by
  unfold trimL
  have h1 : l.dropWhile Char.isWhitespace <:+ l := List.dropWhile_suffix _
  have h3 : (l.dropWhile Char.isWhitespace).reverse.dropWhile Char.isWhitespace
      <:+ (l.dropWhile Char.isWhitespace).reverse := List.dropWhile_suffix _
  have h4 : ((l.dropWhile Char.isWhitespace).reverse.dropWhile Char.isWhitespace).reverse.reverse
      <:+ (l.dropWhile Char.isWhitespace).reverse := by rwa [List.reverse_reverse]
  have h2 : ((l.dropWhile Char.isWhitespace).reverse.dropWhile Char.isWhitespace).reverse
      <+: l.dropWhile Char.isWhitespace := List.reverse_suffix.mp h4
  exact List.IsInfix.trans (preToSub h2) (sufToSub h1)

theorem contains_append_headNotMem {p : List Char} (a b : List Char) (c : Char)
    (hp : p ≠ []) (hb : b.head? = some c) (hc : c ∉ p)
    (ha : listContains a p = false) (hbf : listContains b p = false) :
    listContains (a ++ b) p = false := by
  rw [listContains_eq_false_iff] at ha hbf ⊢
  intro hocc
  rcases infixSpan hocc with hocc | hocc | ⟨s, t, hst, hs, ht, _, htb⟩
  · exact ha hocc
  · exact hbf hocc
  · obtain ⟨u, rfl⟩ := htb
    have hth : (t ++ u).head? = t.head? := by
      cases t with
      | nil => exact absurd rfl ht
      | cons e t2 => rfl
    rw [hth] at hb
    have hct : c ∈ t := List.mem_of_mem_head? (Option.mem_def.mpr hb)
    have hcp : c ∈ p := by
      rw [← hst]
      exact List.mem_append_right s hct
    exact hc hcp

theorem contains_append_lastNotMem {p : List Char} (a b : List Char) (c : Char)
    (hp : p ≠ []) (hl : a.getLast? = some c) (hc : c ∉ p)
    (ha : listContains a p = false) (hbf : listContains b p = false) :
    listContains (a ++ b) p = false := by
  rw [listContains_eq_false_iff] at ha hbf ⊢
  intro hocc
  rcases infixSpan hocc with hocc | hocc | ⟨s, t, hst, hs, ht, hsa, _⟩
  · exact ha hocc
  · exact hbf hocc
  · obtain ⟨u, rfl⟩ := hsa
    have hsl : (u ++ s).getLast? = s.getLast? := by
      rw [List.getLast?_append]
      cases hgl : s.getLast? with
      | none =>
        rw [List.getLast?_eq_none_iff] at hgl
        exact absurd hgl hs
      | some d => rfl
    rw [hsl] at hl
    have hcs : c ∈ s := by
      have := List.getLast?_eq_getLast s hs
      rw [this] at hl
      injection hl with hl2
      rw [← hl2]
      exact List.getLast_mem hs
    have hcp : c ∈ p := by
      rw [← hst]
      exact List.mem_append_left t hcs
    exact hc hcp

theorem blocker_will_may : Blocker "will".data "may".data := by
  refine mkBlocker (by decide) (by decide) ?_ ?_ ?_ <;> decide

theorem blocker_will_possibly : Blocker "will".data "possibly".data := by
  refine mkBlocker (by decide) (by decide) ?_ ?_ ?_ <;> decide

theorem blocker_certainly_may : Blocker "certainly".data "may".data := by
  refine mkBlocker (by decide) (by decide) ?_ ?_ ?_ <;> decide

theorem blocker_certainly_possibly : Blocker "certainly".data "possibly".data := by
  refine mkBlocker (by decide) (by decide) ?_ ?_ ?_ <;> decide

/-! ## Relevance scorer: decomposition and bounds -/

theorem foldl_interest_ge {P : Interest → Bool} (l : List Interest) (a : Int) :
    a ≤ l.foldl (fun s i => if P i then s + 40 else s) a := by
  induction l generalizing a with
  | nil => exact le_refl a
  | cons i t ih =>
    simp only [List.foldl_cons]
    by_cases h : P i
    · simp only [h, if_true]
      exact le_trans (by omega) (ih (a + 40))
    · simp only [h, if_false]
      exact ih a

theorem interestScore_nonneg (e : Event) (p : UserProfile) : 0 ≤ interestScore e p :=
  foldl_interest_ge p.interests 0

theorem careerScore_nonneg (e : Event) (p : UserProfile) : 0 ≤ careerScore e p := by
  unfold careerScore
  cases careerCategoryMap p.careerField with
  | none => exact le_refl 0
  | some c =>
    by_cases h : c = e.category
    · simp [h]
    · simp [h]

theorem geographicScore_nonneg (e : Event) (p : UserProfile) : 0 ≤ geographicScore e p := by
  unfold geographicScore
  split
  · omega
  · omega

theorem recencyScore_nonneg (c n : Int) : 0 ≤ recencyScore c n := le_max_left 0 _

theorem score_decompose (e : Event) (p : UserProfile) (now : Int) :
    calculateRelevanceScore e p now =
      min 100 (interestScore e p + careerScore e p + geographicScore e p +
        recencyScore e.createdAt now) := by
  simp only [calculateRelevanceScore, interestScore, careerScore, geographicScore,
    recencyScore]
  cases careerCategoryMap p.careerField <;> dsimp only <;> repeat' split
  all_goals (congr 1 <;> ring)

/-- C1: `calculateRelevanceScore` always lands in `[0, 100]`, and it is a pure
function of exactly the event, the profile, and the evaluation time `now`
(made an explicit argument in this embedding, since the source reads the
clock only to form `now` for the recency boost): equal inputs give equal
scores, and no other state enters the computation. -/
theorem relevanceScore_range_and_deterministic :
    (∀ (e : Event) (p : UserProfile) (now : Int),
        0 ≤ calculateRelevanceScore e p now ∧ calculateRelevanceScore e p now ≤ 100) ∧
    (∀ (e₁ e₂ : Event) (p₁ p₂ : UserProfile) (n₁ n₂ : Int),
        e₁ = e₂ → p₁ = p₂ → n₁ = n₂ →
          calculateRelevanceScore e₁ p₁ n₁ = calculateRelevanceScore e₂ p₂ n₂) := by
  constructor
  · intro e p now
    rw [score_decompose]
    have h1 := interestScore_nonneg e p
    have h2 := careerScore_nonneg e p
    have h3 := geographicScore_nonneg e p
    have h4 := recencyScore_nonneg e.createdAt now
    constructor
    · exact le_min (by omega) (by omega)
    · exact min_le_left 100 _
  · intro e₁ e₂ p₁ p₂ n₁ n₂ he hp hn
    rw [he, hp, hn]

/-- Witness for C1 at a concrete event, profile and time. -/
theorem relevanceScore_range_witness :
    (0 ≤ calculateRelevanceScore sampleEvent sampleProfile 0 ∧
      calculateRelevanceScore sampleEvent sampleProfile 0 ≤ 100) ∧
    calculateRelevanceScore sampleEvent sampleProfile 0 =
      calculateRelevanceScore sampleEvent sampleProfile 0 :=
  ⟨relevanceScore_range_and_deterministic.1 sampleEvent sampleProfile 0,
    relevanceScore_range_and_deterministic.2 sampleEvent sampleEvent sampleProfile
      sampleProfile 0 0 rfl rfl rfl⟩

/-- C4: the recency contribution of the relevance score is
`max(0, 10 - daysBetween(createdAt, now))`, where `daysBetween` is exactly the
ceiling of `|now - createdAt| / 1 day` (characterised as the least number of
whole days covering the distance); an event created exactly at the evaluation
time contributes the full 10 points, and one created 10 or more days away
contributes 0. -/
theorem recency_contribution_spec :
    (∀ (e : Event) (p : UserProfile) (now : Int),
        calculateRelevanceScore e p now =
          min 100 (interestScore e p + careerScore e p + geographicScore e p +
            recencyScore e.createdAt now)) ∧
    (∀ createdAt now : Int,
        recencyScore createdAt now = max 0 (10 - (daysBetween createdAt now : Int))) ∧
    (∀ createdAt now : Int,
        (now - createdAt).natAbs ≤ daysBetween createdAt now * msPerDay ∧
          ∀ m : Nat, (now - createdAt).natAbs ≤ m * msPerDay →
            daysBetween createdAt now ≤ m) ∧
    (∀ now : Int, recencyScore now now = 10) ∧
    (∀ createdAt now : Int, 10 * msPerDay ≤ (now - createdAt).natAbs →
        recencyScore createdAt now = 0) := by
  refine ⟨score_decompose, fun _ _ => rfl, ?_, ?_, ?_⟩
  · intro createdAt now
    unfold daysBetween msPerDay
    constructor
    · omega
    · intro m hm
      revert hm
      omega
  · intro now
    unfold recencyScore daysBetween msPerDay
    norm_num
  · intro createdAt now h
    unfold recencyScore
    have hdays : 10 ≤ daysBetween createdAt now := by
      unfold daysBetween msPerDay
      unfold msPerDay at h
      omega
    have : (10 : Int) - (daysBetween createdAt now : Int) ≤ 0 := by
      have := Int.ofNat_le.mpr hdays
      omega
    omega

/-- Witness for C4 at concrete timestamps: same-instant creation gives 10 and
a 10-day-old event gives 0. -/
theorem recency_contribution_witness :
    recencyScore 5 5 = 10 ∧ recencyScore 0 (10 * 86400000) = 0 :=
  ⟨recency_contribution_spec.2.2.2.1 5,
    recency_contribution_spec.2.2.2.2 0 (10 * 86400000) (by decide)⟩

/-- C6: the selector's minimum-relevance filter keeps every scored event whose
score equals the threshold (`>=`, inclusive), so such an event stays eligible
for the score-descending selection; the hardcoded default threshold is 20. -/
theorem threshold_filter_inclusive :
    MIN_RELEVANCE_THRESHOLD = 20 ∧
    ∀ (scored : List ScoredEvent) (se : ScoredEvent),
      se ∈ scored → se.score = MIN_RELEVANCE_THRESHOLD → se ∈ relevantFilter scored := by
  refine ⟨rfl, ?_⟩
  intro scored se hm hs
  unfold relevantFilter
  refine List.mem_filter.mpr ⟨hm, ?_⟩
  rw [hs]
  simp

/-- Witness for C6: a single event scoring exactly 20 passes the filter. -/
theorem threshold_filter_witness :
    ScoredEvent.mk sampleEvent 20 ∈ relevantFilter [ScoredEvent.mk sampleEvent 20] :=
  threshold_filter_inclusive.2 [ScoredEvent.mk sampleEvent 20]
    (ScoredEvent.mk sampleEvent 20) (List.mem_singleton.mpr rfl) rfl

theorem sTrim_sLower_comm (c : String) : sTrim (sLower c) = sLower (sTrim c) := by
  unfold sTrim sLower
  exact congrArg String.mk (trimL_lowerL_comm c.data)

theorem sTrim_eq_empty_iff (c : String) : sTrim c = "" ↔ trimL c.data = [] := by
  unfold sTrim
  constructor
  · intro h
    have h2 := congrArg String.data h
    simpa using h2
  · intro h
    rw [h]

/-- C5: the geographic contribution is exactly 20 precisely when the
spec-side condition `specGeoMatch` holds (trimmed country non-empty and,
case-insensitively, a substring of the concatenated title and narrative
fields) and 0 otherwise; a blank country never matches; and a profile with
country `France` scores 20 against an event whose title contains `FRANCE`. -/
theorem geographic_contribution_spec :
    (∀ (e : Event) (p : UserProfile) (now : Int),
        calculateRelevanceScore e p now =
          min 100 (interestScore e p + careerScore e p + geographicScore e p +
            recencyScore e.createdAt now)) ∧
    (∀ (e : Event) (p : UserProfile),
        geographicScore e p = if specGeoMatch e p.country then 20 else 0) ∧
    (∀ (e : Event) (p : UserProfile), sTrim p.country = "" → geographicScore e p = 0) ∧
    geographicScore { sampleEvent with title := "Breaking news from FRANCE today" }
      sampleProfile = 20 := by
  have hmain : ∀ (e : Event) (p : UserProfile),
      geographicScore e p = if specGeoMatch e p.country then 20 else 0 := by
    intro e p
    unfold geographicScore specGeoMatch eventContainsCountry
    by_cases h1 : trimL p.country.data = []
    · have htr : sTrim p.country = "" := (sTrim_eq_empty_iff p.country).mpr h1
      have hemp : sTrim "" = "" := rfl
      by_cases h0 : p.country = ""
      · simp [h0, htr, hemp]
      · simp [h0, htr]
    · have htr : sTrim p.country ≠ "" := fun h => h1 ((sTrim_eq_empty_iff p.country).mp h)
      have h0 : p.country ≠ "" := by
        intro h
        apply h1
        rw [h]
        rfl
      rw [sTrim_sLower_comm]
      simp [h0, htr]
  refine ⟨score_decompose, hmain, ?_, ?_⟩
  · intro e p htrim
    rw [hmain]
    have : specGeoMatch e p.country = false := by
      unfold specGeoMatch
      simp [htrim]
    simp [this]
  · rw [hmain]
    rfl

/-- Witness for C5: a blank (whitespace-only) country contributes 0. -/
theorem geographic_contribution_witness :
    geographicScore sampleEvent { sampleProfile with country := "   " } = 0 :=
  geographic_contribution_spec.2.2.1 sampleEvent
    { sampleProfile with country := "   " } rfl

/-- C3 counterexample: on a payload that lacks `why_people_care` and carries
`category: "sports"`, `validateExtractedData` raises only the missing-fields
failure; its message names `why_people_care` but never mentions `sports`, so
no single reported failure names both problems. -/
theorem validator_single_failure_refuted :
    validateExtractedData "2026-02-01" sportsPayload =
      .error (.missingFields ["why_people_care"]) ∧
    sContains (errorMessage (.missingFields ["why_people_care"])) "why_people_care" = true ∧
    sContains (errorMessage (.missingFields ["why_people_care"])) "sports" = false :=
  ⟨rfl, rfl, rfl⟩

/-- C3 amended: when a required field such as `why_people_care` is missing,
validation fails with the missing-fields error naming every missing field
(the invalid category is not examined, let alone reported); the
category error, naming the offending value, is raised only when no required
field is missing. -/
theorem validator_missing_fields_shadow_category :
    (∀ (today : String) (x : ExtractedPayload),
        isFieldMissing x.why_people_care = true →
          validateExtractedData today x = .error (.missingFields (missingFieldsOf x)) ∧
            "why_people_care" ∈ missingFieldsOf x) ∧
    (∀ (today : String) (x : ExtractedPayload),
        missingFieldsOf x = [] → categoryAccepted x.category = false →
          validateExtractedData today x = .error (.invalidCategory x.category)) := by
  constructor
  · intro today x hmiss
    have hmem : "why_people_care" ∈ missingFieldsOf x := by
      unfold missingFieldsOf
      rw [hmiss]
      simp
    have hne : missingFieldsOf x ≠ [] := by
      intro h
      rw [h] at hmem
      exact List.not_mem_nil _ hmem
    constructor
    · unfold validateExtractedData
      simp [hne]
    · exact hmem
  · intro today x hnone hcat
    unfold validateExtractedData
    simp [hnone, hcat]

/-- Witness for C3's amended statement at the concrete `sports` payload and at
the same payload with `why_people_care` filled in. -/
theorem validator_missing_fields_witness :
    (validateExtractedData "2026-02-01" sportsPayload =
        .error (.missingFields (missingFieldsOf sportsPayload)) ∧
      "why_people_care" ∈ missingFieldsOf sportsPayload) ∧
    validateExtractedData "2026-02-01"
        { sportsPayload with why_people_care := some "People care." } =
      .error (.invalidCategory
        ({ sportsPayload with why_people_care := some "People care." }).category) :=
  ⟨validator_missing_fields_shadow_category.1 "2026-02-01" sportsPayload rfl,
    validator_missing_fields_shadow_category.2 "2026-02-01"
      { sportsPayload with why_people_care := some "People care." } rfl rfl⟩

/-- C7: when the cleaned content is under 100 characters, the Groq extraction
fails with the insufficient-content error, and it does so for every possible
model backend `llm` and JSON parser alike — the result does not depend on
them, which is the embedding's rendering of "the failure happens before any
model call". (The key must be configured; a missing key also aborts before
any model call, but with the configuration error instead.) -/
theorem insufficient_content_aborts_before_model :
    ∀ (groqApiKey : String) (llm : String → Except ExtractError String)
      (jsonParse : String → Option ExtractedPayload) (today content : String)
      (isMarkdown : Bool),
      groqApiKey ≠ "" →
      (extractMainContent content isMarkdown).length < 100 →
      extractFromHtmlWithGroq groqApiKey llm jsonParse today content isMarkdown =
        .error .insufficientContent := by
  intro groqApiKey llm jsonParse today content isMarkdown hkey hshort
  unfold extractFromHtmlWithGroq
  rw [if_neg hkey]
  have : extractMainContent content isMarkdown = "" ∨
      (extractMainContent content isMarkdown).length < 100 := Or.inr hshort
  rw [if_pos this]

/-- Witness for C7: a five-character Markdown article aborts with
insufficient content regardless of the supplied backend. -/
theorem insufficient_content_witness :
    "k" ≠ "" ∧ (extractMainContent "short" true).length < 100 ∧
    extractFromHtmlWithGroq "k" (fun _ => .ok "{}") (fun _ => none)
      "2026-02-01" "short" true = .error .insufficientContent :=
  ⟨by decide, by decide,
    insufficient_content_aborts_before_model "k" (fun _ => .ok "{}") (fun _ => none)
      "2026-02-01" "short" true (by decide) (by decide)⟩

/-- C9 (code bug): `updateDraft` writes `field || null` for every column, so
a publish-style partial update carrying only `status` erases the stored
title (and every other content field) instead of leaving it unchanged. -/
theorem updateDraft_wipes_unsupplied_fields :
    sampleDraft.title = some "Draft title" ∧
    ((updateDraft [sampleDraft] 7 { emptyUpdate with status := some .published }).1.map
        DraftRow.title) = some none ∧
    ((updateDraft [sampleDraft] 7 { emptyUpdate with status := some .published }).1.map
        DraftRow.status) = some (DraftStatus.published) ∧
    ((updateDraft [sampleDraft] 7
        { emptyUpdate with title := some "New title" }).1) = none :=
  ⟨rfl, rfl, rfl, rfl⟩

/-- C8 counterexample: `updateDraft` imposes no transition discipline — it
writes whatever valid status the partial update supplies, so a single call
moves a freshly created draft (status `draft`) back to `extracting`. -/
theorem draft_status_moves_backward :
    sampleDraft.status = .draft ∧
    ((updateDraft [sampleDraft] 7 { emptyUpdate with status := some .extracting }).1.map
        DraftRow.status) = some (DraftStatus.extracting) :=
  ⟨rfl, rfl⟩

/-- C8 amended: the operations the admin flow actually performs keep statuses
away from `extracting`: `createDraft` always inserts status `draft`, the
save-draft update carries no status and therefore fails outright against the
NOT NULL status column (leaving the table unchanged), and publishing writes
`published`; hence no sequence of admin-flow operations ever yields a draft
with status `extracting`. -/
theorem admin_flow_never_extracting :
    (∀ (db : List DraftRow) (newId adminId : Nat) (createdAt : Int)
        (sourceUrl extractedData : String) (eventData : DraftUpdate) (r : DraftRow),
        (createDraft db newId adminId createdAt sourceUrl extractedData eventData).1 =
          some r → r.status = .draft) ∧
    (∀ (ops : List AdminOp) (db : List DraftRow),
        (∀ r ∈ db, r.status ≠ .extracting) →
        ∀ r ∈ applyAdminOps ops db, r.status ≠ .extracting) := by
  constructor
  · intro db newId adminId createdAt sourceUrl extractedData eventData r h
    unfold createDraft at h
    simp only [Option.some.injEq] at h
    rw [← h]
  · intro ops
    induction ops with
    | nil => intro db hdb r hr; exact hdb r hr
    | cons op rest ih =>
      intro db hdb r hr
      refine ih (applyAdminOp db op) ?_ r hr
      intro r2 hr2
      cases op with
      | create newId adminId createdAt sourceUrl extractedData fields =>
        have hstep : applyAdminOp db (AdminOp.create newId adminId createdAt
            sourceUrl extractedData fields) =
            (createDraft db newId adminId createdAt sourceUrl extractedData fields).2 := rfl
        rw [hstep] at hr2
        unfold createDraft at hr2
        simp only at hr2
        rcases List.mem_append.mp hr2 with h | h
        · exact hdb r2 h
        · rw [List.mem_singleton.mp h]
          intro hst
          exact DraftStatus.noConfusion hst
      | save draftId fields =>
        have hstep : applyAdminOp db (AdminOp.save draftId fields) =
            (updateDraft db draftId { fields with status := none }).2 := rfl
        rw [hstep] at hr2
        unfold updateDraft at hr2
        rcases hf : List.find? (fun r => r.id = draftId) db with _ | row
        · rw [hf] at hr2
          exact hdb r2 hr2
        · rw [hf] at hr2
          simp only at hr2
          exact hdb r2 hr2
      | publish draftId =>
        have hstep : applyAdminOp db (AdminOp.publish draftId) =
            (updateDraft db draftId { emptyUpdate with status := some .published }).2 := rfl
        rw [hstep] at hr2
        unfold updateDraft at hr2
        rcases hf : List.find? (fun r => r.id = draftId) db with _ | row
        · rw [hf] at hr2
          exact hdb r2 hr2
        · rw [hf] at hr2
          simp only at hr2
          rcases List.mem_map.mp hr2 with ⟨r0, hr0, hform⟩
          by_cases hid : r0.id = draftId
          · rw [← hform]
            simp only [hid, if_true]
            intro hst
            exact DraftStatus.noConfusion hst
          · rw [← hform]
            simp only [hid, if_false]
            exact hdb r0 hr0

/-- Witness for C8's amended statement: a freshly created draft has status
`draft`, and publishing the sample draft leaves no draft in `extracting`. -/
theorem admin_flow_never_extracting_witness :
    ((createDraft [] 9 3 0 "u" "x" emptyUpdate).1.getD sampleDraft).status =
      DraftStatus.draft ∧
    (∀ r ∈ applyAdminOps [AdminOp.publish 7] [sampleDraft],
        r.status ≠ DraftStatus.extracting) :=
  ⟨admin_flow_never_extracting.1 [] 9 3 0 "u" "x" emptyUpdate _ rfl,
    admin_flow_never_extracting.2 [AdminOp.publish 7] [sampleDraft] (by decide)⟩

/-- C2: whenever at least one stored event is non-expired at the evaluation
time, `getActiveEvent` returns a personalized event for any user whose
profile loads — if no candidate clears the relevance threshold the selector
falls back to the most recent non-expired event, so the result is never
`none` while a non-expired event exists. -/
theorem selector_fallback_guarantee :
    ∀ (profile : UserProfile) (storage : List Event) (now : Int),
      storage.filter (fun e => now < e.expiresAt) ≠ [] →
      ∃ pe, getActiveEvent (some profile) storage now = some pe := by
  intro profile storage now hne
  unfold getActiveEvent
  rcases hs : List.insertionSort moreRecent (storage.filter (fun e => now < e.expiresAt))
    with _ | ⟨e0, rest⟩
  · exfalso
    have hperm := List.perm_insertionSort moreRecent
      (storage.filter (fun e => now < e.expiresAt))
    rw [hs] at hperm
    exact hne hperm.symm.eq_nil
  · exact ⟨_, rfl⟩

/-- Witness for C2: one stored non-expired event yields a selection. -/
theorem selector_fallback_witness :
    [sampleEvent].filter (fun e => (0 : Int) < e.expiresAt) ≠ [] ∧
    ∃ pe, getActiveEvent (some sampleProfile) [sampleEvent] 0 = some pe :=
  ⟨by decide, selector_fallback_guarantee sampleProfile [sampleEvent] 0 (by decide)⟩

/-! ## Personalization: tracking occurrences through the rewrite pipeline -/

theorem sContains_append_head (p t rest : String) (c : Char)
    (hp : p.data ≠ []) (hhead : rest.data.head? = some c) (hc : c ∉ p.data)
    (ht : sContains t p = false) (hrest : sContains rest p = false) :
    sContains (t ++ rest) p = false := by
  unfold sContains at ht hrest ⊢
  rw [String.data_append]
  exact contains_append_headNotMem t.data rest.data c hp hhead hc ht hrest

theorem sContains_append_last (p t rest : String) (c : Char)
    (hp : p.data ≠ []) (hlast : t.data.getLast? = some c) (hc : c ∉ p.data)
    (ht : sContains t p = false) (hrest : sContains rest p = false) :
    sContains (t ++ rest) p = false := by
  unfold sContains at ht hrest ⊢
  rw [String.data_append]
  exact contains_append_lastNotMem t.data rest.data c hp hlast hc ht hrest

theorem sHead_append (a b : String) (c : Char) (h : a.data.head? = some c) :
    (a ++ b).data.head? = some c := by
  rw [String.data_append, List.head?_append, h]
  rfl

theorem careerSentence_certFree (e : Event) (p : UserProfile) (t : String)
    (ht : sContains t "certainly" = false) :
    sContains (careerSentence e p t) "certainly" = false := by
  unfold careerSentence
  have hrest1 : sContains (" If you work in technology, this " ++
      ((if p.riskTolerance = .low then "may" else "could") ++
        " affect your industry.")) "certainly" = false := by
    by_cases hr : p.riskTolerance = RiskTolerance.low
    · rw [if_pos hr]; decide
    · rw [if_neg hr]; decide
  have hrest2 : sContains (" For those in finance, this " ++
      ((if p.riskTolerance = .low then "may" else "could") ++
        " have implications.")) "certainly" = false := by
    by_cases hr : p.riskTolerance = RiskTolerance.low
    · rw [if_pos hr]; decide
    · rw [if_neg hr]; decide
  split
  · split
    · rw [String.append_assoc, String.append_assoc]
      refine sContains_append_head _ _ _ ' ' (by decide) ?_ (by decide) ht hrest1
      exact sHead_append _ _ _ (by decide)
    · split
      · rw [String.append_assoc, String.append_assoc]
        refine sContains_append_head _ _ _ ' ' (by decide) ?_ (by decide) ht hrest2
        exact sHead_append _ _ _ (by decide)
      · exact ht
  · exact ht

theorem countrySentence_certFree (e : Event) (p : UserProfile) (t : String)
    (ht : sContains t "certainly" = false)
    (hcountry : sContains p.country "certainly" = false) :
    sContains (countrySentence e p t) "certainly" = false := by
  unfold countrySentence
  split
  · have r1 : sContains (", the impact " ++
        ((if p.riskTolerance = .low then "may be limited" else "could vary") ++ "."))
        "certainly" = false := by
      by_cases hr : p.riskTolerance = RiskTolerance.low
      · rw [if_pos hr]; decide
      · rw [if_neg hr]; decide
    have r2 : sContains (p.country ++ (", the impact " ++
        ((if p.riskTolerance = .low then "may be limited" else "could vary") ++ ".")))
        "certainly" = false := by
      refine sContains_append_head _ _ _ ',' (by decide) ?_ (by decide) hcountry r1
      exact sHead_append _ _ _ (by decide)
    have r3 : sContains (" Depending on your location in " ++ (p.country ++
        (", the impact " ++
          ((if p.riskTolerance = .low then "may be limited" else "could vary") ++ "."))))
        "certainly" = false := by
      refine sContains_append_last _ _ _ ' ' (by decide) (by decide) (by decide) (by decide) r2
    rw [String.append_assoc, String.append_assoc, String.append_assoc,
      String.append_assoc]
    refine sContains_append_head _ _ _ ' ' (by decide) ?_ (by decide) ht r3
    exact sHead_append _ _ _ (by decide)
  · exact ht

theorem moneySentence_certFree (e : Event) (p : UserProfile) (t : String)
    (ht : sContains t "certainly" = false) :
    sContains (moneySentence e p t) "certainly" = false := by
  unfold moneySentence
  split
  · have hrest : sContains (" If financial stability is a concern, this " ++
        ((if p.riskTolerance = .low then "may" else "could") ++
          " be worth monitoring.")) "certainly" = false := by
      by_cases hr : p.riskTolerance = RiskTolerance.low
      · rw [if_pos hr]; decide
      · rw [if_neg hr]; decide
    rw [String.append_assoc, String.append_assoc]
    refine sContains_append_head _ _ _ ' ' (by decide) ?_ (by decide) ht hrest
    exact sHead_append _ _ _ (by decide)
  · exact ht

theorem healthSentence_certFree (e : Event) (p : UserProfile) (t : String)
    (ht : sContains t "certainly" = false) :
    sContains (healthSentence e p t) "certainly" = false := by
  unfold healthSentence
  split
  · have hrest : sContains (" For those focused on health, this " ++
        ((if p.riskTolerance = .low then "may" else "could") ++
          " be relevant.")) "certainly" = false := by
      by_cases hr : p.riskTolerance = RiskTolerance.low
      · rw [if_pos hr]; decide
      · rw [if_neg hr]; decide
    rw [String.append_assoc, String.append_assoc]
    refine sContains_append_head _ _ _ ' ' (by decide) ?_ (by decide) ht hrest
    exact sHead_append _ _ _ (by decide)
  · exact ht

theorem environmentSentence_certFree (e : Event) (p : UserProfile) (t : String)
    (ht : sContains t "certainly" = false) :
    sContains (environmentSentence e p t) "certainly" = false := by
  unfold environmentSentence
  split
  · have hrest : sContains (" If environmental issues matter to you, this " ++
        ((if p.riskTolerance = .low then "may" else "could") ++
          " be significant.")) "certainly" = false := by
      by_cases hr : p.riskTolerance = RiskTolerance.low
      · rw [if_pos hr]; decide
      · rw [if_neg hr]; decide
    rw [String.append_assoc, String.append_assoc]
    refine sContains_append_head _ _ _ ' ' (by decide) ?_ (by decide) ht hrest
    exact sHead_append _ _ _ (by decide)
  · exact ht

theorem appendStage_certFree (e : Event) (p : UserProfile)
    (h1 : sContains e.whatThisMeans "certainly" = false)
    (h2 : sContains p.country "certainly" = false) :
    sContains (personalizeAppendStage e p) "certainly" = false := by
  unfold personalizeAppendStage
  exact environmentSentence_certFree e p _
    (healthSentence_certFree e p _
      (moneySentence_certFree e p _
        (countrySentence_certFree e p _ (careerSentence_certFree e p _ h1) h2)))

/-- C10 counterexample: the base implications text `wilcertainly` comes out of
`personalizeEvent` as `willikely` — the final `certainly`-to-`likely` rewrite
glues a fresh `will` together — so the personalized text is not `will`-free
in general. -/
theorem personalize_reintroduces_will :
    willEvent.whatThisMeans = "wilcertainly" ∧
    (personalizeEvent willEvent sampleProfile).personalizedWhatThisMeans = "willikely" ∧
    sContains (personalizeEvent willEvent sampleProfile).personalizedWhatThisMeans
      "will" = true :=
  ⟨rfl, rfl, rfl⟩

/-- C10 amended: provided neither the base what-this-means text nor the
profile's country contains `certainly`, the personalized implications text
contains no occurrence of the substring `will`: the `will`-to-`may` rewrite
removes every occurrence (also inside longer words), the appended sentences
start with a space and introduce none, the `definitely`-to-`possibly` rewrite
cannot manufacture one, and the `certainly`-to-`likely` rewrite — the one
step that can create `will`, as the counterexample shows — has nothing left
to match. -/
theorem personalized_text_no_will :
    ∀ (event : Event) (profile : UserProfile),
      sContains event.whatThisMeans "certainly" = false →
      sContains profile.country "certainly" = false →
      sContains (personalizeEvent event profile).personalizedWhatThisMeans "will" = false := by
  intro event profile h1 h2
  have hcert : sContains (personalizeAppendStage event profile) "certainly" = false :=
    appendStage_certFree event profile h1 h2
  show listContains
      (trimL (replaceAllL (replaceAllL (replaceAllL
          (personalizeAppendStage event profile).data
          "will".data "may".data) "definitely".data "possibly".data)
        "certainly".data "likely".data))
      "will".data = false
  have h6w : listContains (replaceAllL (personalizeAppendStage event profile).data
      "will".data "may".data) "will".data = false :=
    replaceAll_no_occurrence _ (by decide) blocker_will_may
  have h6c : listContains (replaceAllL (personalizeAppendStage event profile).data
      "will".data "may".data) "certainly".data = false :=
    replaceAll_preserves_free _ _ (by decide) blocker_certainly_may hcert
  have h7w : listContains (replaceAllL (replaceAllL
      (personalizeAppendStage event profile).data "will".data "may".data)
      "definitely".data "possibly".data) "will".data = false :=
    replaceAll_preserves_free _ _ (by decide) blocker_will_possibly h6w
  have h7c : listContains (replaceAllL (replaceAllL
      (personalizeAppendStage event profile).data "will".data "may".data)
      "definitely".data "possibly".data) "certainly".data = false :=
    replaceAll_preserves_free _ _ (by decide) blocker_certainly_possibly h6c
  have h8 : replaceAllL (replaceAllL (replaceAllL
      (personalizeAppendStage event profile).data "will".data "may".data)
      "definitely".data "possibly".data) "certainly".data "likely".data =
      replaceAllL (replaceAllL (personalizeAppendStage event profile).data
        "will".data "may".data) "definitely".data "possibly".data :=
    replaceAll_of_not_contains _ _ h7c
  rw [h8]
  exact contains_false_of_sub h7w (trimL_infix_self _)

/-- Witness for C10's amended statement at a concrete event and profile. -/
theorem personalized_text_no_will_witness :
    sContains sampleEvent.whatThisMeans "certainly" = false ∧
    sContains sampleProfile.country "certainly" = false ∧
    sContains (personalizeEvent sampleEvent sampleProfile).personalizedWhatThisMeans
      "will" = false :=
  ⟨rfl, rfl, personalized_text_no_will sampleEvent sampleProfile rfl rfl⟩
